import Mathlib

/-!
Verification of the phonebook_server contact repository.

This file gives a shallow embedding of the repository's record store
(`src/app/crud.py`), its query builder (`get_contacts`), the facet
extractor (`get_all_languages`) and the legacy migration pipeline
(`src/migrate_contacts.py`), and proves or refutes the frozen claims
about them.

Modelling conventions:
* The MongoDB collection is a `List Doc`; `_id` lookup (`find_one`)
  returns the first match, `update_one` rewrites the first match,
  `insert_one` appends.  MongoDB compares string `_id`s bytewise,
  which for the ASCII ids involved coincides with Lean's
  lexicographic `String` order.
* Timestamps (`datetime.utcnow()`) are modelled as a `Nat` parameter:
  the clock is an input of each operation.
* Python `int(...)` parsing, `f"{n:04d}"` formatting, `str.strip`,
  `str.split(',')` and truthiness tests are each embedded by a small
  executable function next to its first use.
* The `$regex` operator applied to the user-supplied search string is
  modelled on the PCRE fragment the repository's data exercises:
  every character is a literal except `.`, which matches any
  character other than a newline.  On strings free of regex
  metacharacters this agrees with full PCRE.
* A pydantic `ContactUpdate` with `model_dump(exclude_unset=True)`
  distinguishes "field absent from the payload" from "field present".
  Optional string fields may additionally be present with an explicit
  null, hence `Option (Option String)`.  Payloads that set a
  non-nullable field (name, languages, tags, the boolean flags) to an
  explicit null make the source itself fail re-validation when the
  updated record is read back, and are not modelled.
-/

namespace Phonebook

/-- Decimal digit string of a `Nat` (Python `str(n)` for `n ≥ 0`). -/
def natDec (n : Nat) : String := Nat.repr n

/-- Left-pad a string with `'0'` up to width `w`
    (the padding part of Python's `f"{n:04d}"`). -/
def padZeros (w : Nat) (s : String) : String :=
  String.mk (List.replicate (w - s.length) '0') ++ s

/-- Python `f"{n:04d}"`: minimum width 4, zero fill after the sign. -/
def pad04 (n : Int) : String :=
  if n < 0 then "-" ++ padZeros 3 (natDec n.natAbs)
  else padZeros 4 (natDec n.toNat)

/-- Python `str.strip()` (ASCII whitespace). -/
def pyStrip (s : String) : String :=
  String.mk
    (((s.data.dropWhile Char.isWhitespace).reverse.dropWhile
      Char.isWhitespace).reverse)

/-- Value of a list of decimal digits (underscores already removed). -/
def digitsVal (l : List Char) : Nat :=
  l.foldl (fun a c => a * 10 + (c.toNat - 48)) 0

/-- Scans the tail of a Python integer literal: every character must be a
    digit, except single underscores standing between two digits.
    First argument is the previous character. -/
def undOk : Char → List Char → Bool
  | _, [] => true
  | p, c :: cs =>
    (if c = '_' then
      p.isDigit && (match cs with | c2 :: _ => c2.isDigit | [] => false)
    else c.isDigit) && undOk c cs

/-- A valid Python unsigned integer literal body: nonempty, starts with a
    digit, single underscores only between digits. -/
def pyDigitsOk (l : List Char) : Bool :=
  match l with
  | [] => false
  | c :: rest => c.isDigit && undOk c rest

/-- Python `int(s)` for ASCII decimal strings: surrounding whitespace is
    stripped, an optional sign is allowed, underscores may separate
    digits; anything else raises `ValueError`, i.e. returns `none`. -/
def pyInt (s : String) : Option Int :=
  match (pyStrip s).data with
  | '+' :: rest =>
    if pyDigitsOk rest then some (digitsVal (rest.filter (· ≠ '_'))) else none
  | '-' :: rest =>
    if pyDigitsOk rest then some (-(digitsVal (rest.filter (· ≠ '_')) : Int)) else none
  | l =>
    if pyDigitsOk l then some (digitsVal (l.filter (· ≠ '_'))) else none

/-- Python truthiness of an optional string (`if x:`). -/
def optTruthy : Option String → Bool
  | none => false
  | some s => s ≠ ""

/-- Split a character list at every occurrence of `sep` (Python
    `str.split(sep)` for a one-character separator keeps empty
    segments and yields `[""]` on the empty string). -/
def splitOnChar (sep : Char) : List Char → List (List Char)
  | [] => [[]]
  | a :: as =>
    match splitOnChar sep as with
    | h :: t => if a = sep then [] :: h :: t else (a :: h) :: t
    | [] => if a = sep then [[], []] else [[a]]

/-- Python `s.split(',')`. -/
def pySplitComma (s : String) : List String :=
  (splitOnChar ',' s.data).map String.mk

/-- Strict lexicographic order on code-point lists (MongoDB's bytewise
    string comparison and Python's string comparison agree with this
    on the ASCII data involved). -/
def charListLt : List Char → List Char → Bool
  | [], [] => false
  | [], _ :: _ => true
  | _ :: _, [] => false
  | a :: as, b :: bs =>
    if a.toNat < b.toNat then true
    else if b.toNat < a.toNat then false
    else charListLt as bs

/-- Strict lexicographic order on strings. -/
def strLt (s t : String) : Bool := charListLt s.data t.data

/-- Lexicographic order on strings. -/
def strLe (s t : String) : Bool := !(strLt t s)

/-- A stored contact document, as written by `create_contact`
    (`src/app/crud.py`) and re-read into the `Contact` model. -/
structure Doc where
  id : String
  name : String
  extension : Option String := none
  company : Option String := none
  department : Option String := none
  designation : Option String := none
  mobile : Option String := none
  landline : Option String := none
  email : Option String := none
  website : Option String := none
  comments : Option String := none
  profile_picture : Option String := none
  languages : List String := []
  tags : List String := []
  expose : Bool := true
  is_ert : Bool := false
  is_ifa : Bool := false
  is_third_party : Bool := false
  created_at : Nat := 0
  updated_at : Nat := 0
deriving DecidableEq

/-- The `ContactCreate` pydantic payload (`src/app/models.py`). -/
structure ContactCreate where
  name : String
  extension : Option String := none
  company : Option String := none
  department : Option String := none
  designation : Option String := none
  mobile : Option String := none
  landline : Option String := none
  email : Option String := none
  website : Option String := none
  comments : Option String := none
  profile_picture : Option String := none
  languages : List String := []
  tags : List String := []
  expose : Bool := true
  is_ert : Bool := false
  is_ifa : Bool := false
  is_third_party : Bool := false
deriving DecidableEq

/-- The `ContactUpdate` pydantic payload with
    `model_dump(exclude_unset=True)` semantics: the outer `Option` is
    "present in the payload"; for optional string fields the inner
    `Option` is the value itself, possibly an explicit null. -/
structure ContactUpdate where
  name : Option String := none
  extension : Option (Option String) := none
  company : Option (Option String) := none
  department : Option (Option String) := none
  designation : Option (Option String) := none
  mobile : Option (Option String) := none
  landline : Option (Option String) := none
  email : Option (Option String) := none
  website : Option (Option String) := none
  comments : Option (Option String) := none
  profile_picture : Option (Option String) := none
  languages : Option (List String) := none
  tags : Option (List String) := none
  expose : Option Bool := none
  is_ert : Option Bool := none
  is_ifa : Option Bool := none
  is_third_party : Option Bool := none
deriving DecidableEq

/-- Ordered insertion for the sort models. -/
def insertLe (le : α → α → Bool) (a : α) : List α → List α
  | [] => [a]
  | b :: bs => if le a b then a :: b :: bs else b :: insertLe le a bs

/-- Stable insertion sort, used to model both the MongoDB `sort` stage
    (which leaves the relative order of equal keys unspecified; the
    model fixes the stable outcome) and Python's `sorted`. -/
def sortByLe (le : α → α → Bool) : List α → List α
  | [] => []
  | a :: as => insertLe le a (sortByLe le as)

/-- Model of `find_one({"_id": cid})`: first document with the given id. -/
def findDoc (store : List Doc) (cid : String) : Option Doc :=
  store.find? (fun d => d.id == cid)

/-- Rewrite the first element satisfying `p` (MongoDB `update_one`). -/
def replaceFirstBy (p : α → Bool) (f : α → α) : List α → List α
  | [] => []
  | a :: as => if p a then f a :: as else a :: replaceFirstBy p f as

/-- Model of `find_one(sort=[("_id", -1)])`: the document whose `_id` is
    bytewise greatest (ids are unique in MongoDB; on a tie the model
    keeps the earlier document, whose id is the same string). -/
def maxById (store : List Doc) : Option Doc :=
  store.foldl
    (fun acc d =>
      match acc with
      | none => some d
      | some m => if strLt m.id d.id then some d else some m)
    none

/-- Model of `get_next_contact_id` (`src/app/crud.py`, lines 7-27). -/
def get_next_contact_id (store : List Doc) : String :=
  match maxById store with
  | none => "0001"
  | some last =>
    match pyInt last.id with
    | some lastId => pad04 (lastId + 1)
    | none => pad04 ((store.length : Int) + 1)

/-- Outcome of `create_contact`: the `ValueError` raised on a
    duplicate email, or the created document. -/
inductive CreateResult where
  | dup : CreateResult
  | ok : Doc → CreateResult
deriving DecidableEq

/-- Build the stored document of `create_contact`. -/
def docOfCreate (c : ContactCreate) (cid : String) (now : Nat) : Doc :=
  { id := cid, name := c.name, extension := c.extension, company := c.company,
    department := c.department, designation := c.designation, mobile := c.mobile,
    landline := c.landline, email := c.email, website := c.website,
    comments := c.comments, profile_picture := c.profile_picture,
    languages := c.languages, tags := c.tags, expose := c.expose,
    is_ert := c.is_ert, is_ifa := c.is_ifa, is_third_party := c.is_third_party,
    created_at := now, updated_at := now }

/-- Model of `create_contact` (`src/app/crud.py`, lines 30-51): duplicate-email
    check when the candidate email is truthy, then id assignment,
    timestamping and insertion. Returns the store after the call. -/
def create_contact (store : List Doc) (c : ContactCreate) (now : Nat) :
    List Doc × CreateResult :=
  match c.email with
  | some e =>
    if e ≠ "" && store.any (fun d => d.email == some e) then
      (store, .dup)
    else
      let cid := get_next_contact_id store
      let d := docOfCreate c cid now
      (store ++ [d], .ok d)
  | none =>
    let cid := get_next_contact_id store
    let d := docOfCreate c cid now
    (store ++ [d], .ok d)

/-- Model of `get_contact` (`src/app/crud.py`, lines 54-66). -/
def get_contact (store : List Doc) (cid : String) : Option Doc :=
  findDoc store cid

/-- Outcome of `update_contact`: `None` for a missing id, the
    duplicate-email `ValueError`, or the refreshed document. -/
inductive UpdateResult where
  | notFound : UpdateResult
  | dup : UpdateResult
  | ok : Doc → UpdateResult
deriving DecidableEq

/-- Model of the `$set` of the fields present in the payload plus `updated_at`
    (`update_dict` in `update_contact`). -/
def applyUpdate (u : ContactUpdate) (now : Nat) (d : Doc) : Doc :=
  { d with
    name := u.name.getD d.name,
    extension := u.extension.getD d.extension,
    company := u.company.getD d.company,
    department := u.department.getD d.department,
    designation := u.designation.getD d.designation,
    mobile := u.mobile.getD d.mobile,
    landline := u.landline.getD d.landline,
    email := u.email.getD d.email,
    website := u.website.getD d.website,
    comments := u.comments.getD d.comments,
    profile_picture := u.profile_picture.getD d.profile_picture,
    languages := u.languages.getD d.languages,
    tags := u.tags.getD d.tags,
    expose := u.expose.getD d.expose,
    is_ert := u.is_ert.getD d.is_ert,
    is_ifa := u.is_ifa.getD d.is_ifa,
    is_third_party := u.is_third_party.getD d.is_third_party,
    updated_at := now }

/-- The duplicate-email test of `update_contact`: a truthy payload
    email already held by a document with a different id. -/
def updDupHit (store : List Doc) (cid : String) (u : ContactUpdate) : Bool :=
  match u.email with
  | some (some e) =>
    e ≠ "" && store.any (fun d => d.email == some e && d.id != cid)
  | _ => false

/-- Model of `update_contact` (`src/app/crud.py`, lines 137-171): existence
    check, duplicate-email check on a truthy payload email against
    every other document, `$set` of the present fields, re-read. -/
def update_contact (store : List Doc) (cid : String) (u : ContactUpdate)
    (now : Nat) : List Doc × UpdateResult :=
  match findDoc store cid with
  | none => (store, .notFound)
  | some _ =>
    if updDupHit store cid u then (store, .dup)
    else
      let store2 := replaceFirstBy (fun d => d.id == cid) (applyUpdate u now) store
      match findDoc store2 cid with
      | some d2 => (store2, .ok d2)
      | none => (store2, .notFound)

/-- Model of `get_all_languages` (`src/app/crud.py`, lines 199-215): union of
    the `languages` arrays of all documents (documents with a falsy
    array are skipped, which does not change the union), with the
    exact string `"English"` discarded, sorted (Python `sorted` on a
    set of distinct strings). -/
def get_all_languages (store : List Doc) : List String :=
  let all := store.foldl
    (fun acc d => if d.languages ≠ [] then acc ++ d.languages else acc) []
  sortByLe strLe ((all.dedup).filter (fun l => l ≠ "English"))

/-! ## Query builder (`get_contacts`) -/

/-- One token of the PCRE fragment exercised by the `$regex` filters:
    a literal character, or `.` matching anything but a newline. -/
inductive RTok where
  | lit : Char → RTok
  | dot : RTok
deriving DecidableEq

/-- Compile a `$regex` string on the modelled fragment: `.` is the
    wildcard, every other character is a literal. -/
def compileRegex (s : String) : List RTok :=
  s.data.map (fun c => if c = '.' then RTok.dot else RTok.lit c)

/-- One-token match under the `i` option (lowercase both sides). -/
def tokMatch : RTok → Char → Bool
  | .lit c, x => c.toLower == x.toLower
  | .dot, x => x != '\n'

/-- The pattern matches a prefix of the character list. -/
def matchHere : List RTok → List Char → Bool
  | [], _ => true
  | _ :: _, [] => false
  | t :: ts, c :: cs => tokMatch t c && matchHere ts cs

/-- Unanchored regex search: the pattern matches somewhere in the list. -/
def regexSearch (p : List RTok) : List Char → Bool
  | [] => matchHere p []
  | c :: cs => matchHere p (c :: cs) || regexSearch p cs

/-- Evaluation of a scalar-field regex condition:
    a null or missing field never matches. -/
def optRegex (pat : String) : Option String → Bool
  | none => false
  | some s => regexSearch (compileRegex pat) s.data

/-- The same `$regex` condition on an array field: MongoDB matches the
    document if any element matches. -/
def arrRegex (pat : String) (l : List String) : Bool :=
  l.any (fun s => regexSearch (compileRegex pat) s.data)

/-- Condition stored under the `is_third_party` key of the query dict:
    either an equality from the explicit filter or the
    `{"$ne": True}` mask from `exclude_third_party`. -/
inductive TPCond where
  | eqb : Bool → TPCond
  | neTrue : TPCond
deriving DecidableEq

/-- The query dict assembled by `get_contacts` (lines 86-112). -/
structure Query where
  searchPat : Option String := none
  tagPat : Option String := none
  langPat : Option String := none
  ertEq : Option Bool := none
  ifaEq : Option Bool := none
  thirdCond : Option TPCond := none
deriving DecidableEq

/-- Truthy filter of an optional string parameter (`if search:`). -/
def truthyOpt (s : Option String) : Option String :=
  match s with
  | some v => if v ≠ "" then some v else none
  | none => none

/-- Query construction of `get_contacts`: note that a truthy
    `exclude_third_party` overwrites the `is_third_party` key set by
    the explicit filter (lines 108-112). -/
def buildQuery (search tag language : Option String)
    (is_ert is_ifa is_third_party exclude_third_party : Option Bool) : Query :=
  { searchPat := truthyOpt search,
    tagPat := truthyOpt tag,
    langPat := truthyOpt language,
    ertEq := is_ert,
    ifaEq := is_ifa,
    thirdCond :=
      if exclude_third_party = some true then some .neTrue
      else is_third_party.map .eqb }

/-- Evaluation of the query dict on one document: the `$or` of the
    search regexes, then the conjunction of the remaining keys. -/
def matchesQuery (q : Query) (d : Doc) : Bool :=
  (match q.searchPat with
   | none => true
   | some s =>
     optRegex s (some d.name) || optRegex s d.department ||
     arrRegex s d.tags || optRegex s d.designation) &&
  (match q.tagPat with
   | none => true
   | some s => arrRegex s d.tags) &&
  (match q.langPat with
   | none => true
   | some s => arrRegex s d.languages) &&
  (match q.ertEq with
   | none => true
   | some b => d.is_ert == b) &&
  (match q.ifaEq with
   | none => true
   | some b => d.is_ifa == b) &&
  (match q.thirdCond with
   | none => true
   | some (.eqb b) => d.is_third_party == b
   | some .neTrue => !d.is_third_party)

/-- BSON ascending order on a nullable string field: null and missing
    sort before all strings. -/
def optStrLe (a b : Option String) : Bool :=
  match a, b with
  | none, _ => true
  | some _, none => false
  | some x, some y => strLe x y

/-- Document comparator of the `sort` stage: `department` ascending
    when requested, `extension` descending when requested, `name`
    ascending otherwise (lines 117-125). -/
def docLe (sort_by : String) (d1 d2 : Doc) : Bool :=
  if sort_by = "department" then optStrLe d1.department d2.department
  else if sort_by = "extension" then optStrLe d2.extension d1.extension
  else strLe d1.name d2.name

/-- Model of `get_contacts` (`src/app/crud.py`, lines 69-134): build the query,
    count the matches over the whole collection, sort, then apply
    `skip`/`limit`.  Returns the page and the total. -/
def get_contacts (store : List Doc) (search tag language : Option String)
    (is_ert is_ifa is_third_party exclude_third_party : Option Bool)
    (sort_by : String) (skip limit : Nat) : List Doc × Nat :=
  let q := buildQuery search tag language is_ert is_ifa is_third_party
    exclude_third_party
  let matched := store.filter (matchesQuery q)
  (((sortByLe (docLe sort_by) matched).drop skip).take limit, matched.length)

/-! ## Migration pipeline (`src/migrate_contacts.py`) -/

/-- A loosely typed legacy JSON value as handled by
    `transform_contact`; list values are the string lists occurring in
    the legacy data. -/
inductive Value where
  | vnull : Value
  | vstr : String → Value
  | vbool : Bool → Value
  | vint : Int → Value
  | vlist : List String → Value
deriving DecidableEq

/-- Python `str(...)` on a legacy value. -/
def pyStr : Value → String
  | .vnull => "None"
  | .vstr s => s
  | .vbool true => "True"
  | .vbool false => "False"
  | .vint n => if n < 0 then "-" ++ natDec n.natAbs else natDec n.toNat
  | .vlist l =>
    "[" ++ String.intercalate ", " (l.map (fun s => "'" ++ s ++ "'")) ++ "]"

/-- A legacy record: a JSON object, i.e. a key/value dictionary. -/
def LegacyRec := List (String × Value)

/-- Python `dict.get(k)`: first binding of the key, if any. -/
def lookupV (r : LegacyRec) (k : String) : Option Value :=
  (r.find? (fun p => p.1 == k)).map (fun p => p.2)

/-- Python `dict.get(k, dflt)`. -/
def dictGet (r : LegacyRec) (k : String) (dflt : Value) : Value :=
  (lookupV r k).getD dflt

/-- Model of `to_array` in `transform_contact`: `None` and the empty string give
    `[]`, a list passes through, a string is split on commas with each
    segment stripped and falsy segments dropped, anything else gives
    `[]`. -/
def to_array (v : Value) : List String :=
  match v with
  | .vnull => []
  | .vstr s =>
    if s = "" then []
    else ((pySplitComma s).map pyStrip).filter (fun item => item ≠ "")
  | .vlist l => l
  | _ => []

/-- Model of `to_optional` in `transform_contact`: `None`, the empty string and
    the literal string `"null"` become `None`; any other value is
    string-cast. -/
def to_optional (v : Value) : Option String :=
  match v with
  | .vnull => none
  | .vstr s => if s = "" || s = "null" then none else some s
  | v => some (pyStr v)

/-- Shorthand for `to_optional` applied to a `dict.get` result whose default is
    Python `None`. -/
def to_optional' (ov : Option Value) : Option String :=
  to_optional (ov.getD .vnull)

/-- A transformed document as inserted by the migration (it carries no
    `is_ifa`/`is_third_party`/`profile_picture` keys; `is_ert` is the
    legacy value carried through verbatim). -/
structure MDoc where
  _id : String
  name : String
  extension : Option String := none
  company : Option String := none
  department : Option String := none
  designation : Option String := none
  mobile : Option String := none
  landline : Option String := none
  email : Option String := none
  website : Option String := none
  comments : Option String := none
  expose : Bool := true
  languages : List String := []
  tags : List String := []
  is_ert : Value := .vbool false
  created_at : Nat := 0
  updated_at : Nat := 0
deriving DecidableEq

/-- Model of `transform_contact` (`src/migrate_contacts.py`, lines 90-132).
    The only failing operation is `.strip()` on a non-string `name`
    value (an `AttributeError`, tallied as a transform error);
    `none` models that exception. -/
def transform_contact (old : LegacyRec) (now : Nat) : Option MDoc :=
  match dictGet old "name" (.vstr "") with
  | .vstr nm =>
    some
      { _id := pyStr (dictGet old "id" (.vstr "")),
        name := pyStrip nm,
        extension := to_optional' (lookupV old "extension"),
        company := to_optional' (lookupV old "company"),
        department := to_optional' (lookupV old "department"),
        designation := to_optional' (lookupV old "designation"),
        mobile := to_optional' (lookupV old "mobile"),
        landline := to_optional' (lookupV old "landline"),
        email := to_optional' (lookupV old "email"),
        website := to_optional' (lookupV old "website"),
        comments := to_optional' (lookupV old "comments"),
        expose := true,
        languages := to_array ((lookupV old "languages").getD .vnull),
        tags := to_array ((lookupV old "tags").getD .vnull),
        is_ert := (lookupV old "is_ert").getD (.vbool false),
        created_at := now,
        updated_at := now }
  | _ => none

/-- Model of `find_one` by `_id` over migrated documents. -/
def findM (store : List MDoc) (cid : String) : Option MDoc :=
  store.find? (fun d => d._id == cid)

/-- One `UpdateOne(..., upsert=True)` of the migration batch.
    With `skip = true` the write is `$setOnInsert` only: an existing
    document is left untouched.  With `skip = false` it is a `$set` of
    every field except `created_at` plus `$setOnInsert` of
    `created_at`.  Returns the collection, whether the op upserted and
    whether it modified an existing document (`nModified` counts only
    documents actually changed). -/
def upsertMig (skip : Bool) (c : MDoc) (store : List MDoc) :
    List MDoc × Bool × Bool :=
  match findM store c._id with
  | none => (store ++ [c], true, false)
  | some d =>
    if skip then (store, false, false)
    else
      let d2 := { c with created_at := d.created_at }
      (replaceFirstBy (fun x => x._id == c._id) (fun _ => d2) store,
       false, decide (d2 ≠ d))

/-- Execute the batch of upserts.  `fails i = true` models a
    server-side per-operation write error on the i-th operation (the
    `writeErrors` of a `BulkWriteError`): the operation is not applied
    and is tallied.  Returns the collection, `nUpserted`, `nModified`
    and the write-error count. -/
def runOps (skip : Bool) (fails : Nat → Bool) :
    Nat → List MDoc → List MDoc → List MDoc × Nat × Nat × Nat
  | _, [], store => (store, 0, 0, 0)
  | i, c :: cs, store =>
    if fails i then
      let r := runOps skip fails (i + 1) cs store
      (r.1, r.2.1, r.2.2.1, r.2.2.2 + 1)
    else
      let s := upsertMig skip c store
      let r := runOps skip fails (i + 1) cs s.1
      (r.1, r.2.1 + (if s.2.1 then 1 else 0),
       r.2.2.1 + (if s.2.2 then 1 else 0), r.2.2.2)

/-- The statistics dictionary of `migrate_contacts` (Python ints). -/
structure MStats where
  total : Int
  inserted : Int
  updated : Int
  skipped : Int
  errors : Int
deriving DecidableEq

/-- Model of `migrate_contacts` (`src/migrate_contacts.py`, lines 161-260) with
    a write-error oracle `fails`.  Transform failures are tallied;
    when no operation write-fails, the success branch computes
    `skipped` as the residual; when some operation write-fails, the
    `BulkWriteError` branch adds the write errors to `errors`, takes
    `inserted`/`updated` from the bulk result, and leaves `skipped`
    at 0.  The clock is one `now` per run (the source samples
    `utcnow()` per record; nothing here depends on the distinction). -/
def migrate_contactsO (input : List LegacyRec) (store : List MDoc)
    (skip_duplicates : Bool) (now : Nat) (fails : Nat → Bool) :
    List MDoc × MStats :=
  let total := input.length
  let cs := input.filterMap (fun r => transform_contact r now)
  let terrs := total - cs.length
  let r := runOps skip_duplicates fails 0 cs store
  let nUp := r.2.1
  let nMod := r.2.2.1
  let nErr := r.2.2.2
  if nErr = 0 then
    (r.1,
     { total := total, inserted := nUp, updated := nMod,
       skipped := (total : Int) - nUp - nMod - terrs, errors := terrs })
  else
    (r.1,
     { total := total, inserted := nUp, updated := nMod,
       skipped := 0, errors := terrs + nErr })

/-- Model of `migrate_contacts` on a run whose bulk write succeeds. -/
def migrate_contacts (input : List LegacyRec) (store : List MDoc)
    (skip_duplicates : Bool) (now : Nat) : List MDoc × MStats :=
  migrate_contactsO input store skip_duplicates now (fun _ => false)

/-! ## Spec-side definitions

These follow the words of the claims, to be compared with the
definitions above that follow the source. -/

/-- Modelled from the claim: the maximum of the numeric
    interpretations of the stored ids (the claim's "current maximum
    numeric id"). -/
def maxNumericId (store : List Doc) : Option Int :=
  store.foldl
    (fun acc d =>
      match pyInt d.id, acc with
      | some n, none => some n
      | some n, some m => some (max m n)
      | none, a => a)
    none

/-- Modelled from the claim (C1): the 4-digit zero-padded successor of
    the maximum numeric id; `"0001"` on an empty store; the document
    count plus one when no id parses. -/
def claimNextId (store : List Doc) : String :=
  match store with
  | [] => "0001"
  | _ =>
    match maxNumericId store with
    | some m => pad04 (m + 1)
    | none => pad04 ((store.length : Int) + 1)

/-- Case-insensitive prefix test on character lists. -/
def isPrefixCI : List Char → List Char → Bool
  | [], _ => true
  | _ :: _, [] => false
  | a :: as, b :: bs => a.toLower == b.toLower && isPrefixCI as bs

/-- Case-insensitive substring containment: `pat` occurs inside
    `hay`. -/
def containsCI (pat : List Char) : List Char → Bool
  | [] => isPrefixCI pat []
  | c :: cs => isPrefixCI pat (c :: cs) || containsCI pat cs

/-- Modelled from the claim (C4): a record matches the search string
    `s` when `name`, `department`, any element of `tags`, or
    `designation` contains `s` as a case-insensitive substring. -/
def claimSearchMatches (s : String) (d : Doc) : Bool :=
  containsCI s.data d.name.data ||
  (match d.department with
   | none => false
   | some v => containsCI s.data v.data) ||
  d.tags.any (fun t => containsCI s.data t.data) ||
  (match d.designation with
   | none => false
   | some v => containsCI s.data v.data)

/-- The PCRE metacharacters; on strings free of them a regex is a
    literal pattern. -/
def isRegexMeta (c : Char) : Bool :=
  c == '\\' || c == '^' || c == '$' || c == '.' || c == '|' || c == '?' ||
  c == '*' || c == '+' || c == '(' || c == ')' || c == '[' || c == ']' ||
  c == Char.ofNat 123 || c == Char.ofNat 125

/-- The scalar optional fields of a transformed document, by their
    legacy key (C3). -/
def scalarFieldOf (c : MDoc) (k : String) : Option String :=
  if k = "extension" then c.extension
  else if k = "company" then c.company
  else if k = "department" then c.department
  else if k = "designation" then c.designation
  else if k = "mobile" then c.mobile
  else if k = "landline" then c.landline
  else if k = "email" then c.email
  else if k = "website" then c.website
  else if k = "comments" then c.comments
  else none

/-- A stored document with the given id and name and every other field
    at its model default (used for the concrete instances below). -/
def mkDoc (cid nm : String) : Doc :=
  { id := cid, name := nm }

/-! ## Definitions used by the claim statements -/

/-- The payload `{name: x}`. -/
def nameOnly (x : String) : ContactUpdate := { name := some x }

/-- The scalar optional fields of the legacy schema. -/
def scalarKeys : List String :=
  ["extension", "company", "department", "designation", "mobile",
   "landline", "email", "website", "comments"]

/-- The spec's migration example record. -/
def exC3 : LegacyRec :=
  [("id", .vstr "42"), ("languages", .vstr "English, French"),
   ("tags", .vstr "")]

/-- The document written by a non-skip upsert op over the previous
    value at its id: a fresh insert is the transformed document, an
    update keeps only the stored `created_at`. -/
def mergeOld (c : MDoc) : Option MDoc → MDoc
  | none => c
  | some d => { c with created_at := d.created_at }

/-- Whether a non-skip upsert op counts in `nModified`. -/
def upsertModifies (c : MDoc) : Option MDoc → Bool
  | none => false
  | some d => decide ({ c with created_at := d.created_at } ≠ d)

/-- Flip the `expose` flag of the contact with the given id. -/
def flipExpose (tid : String) (b : Bool) (d : Doc) : Doc :=
  if d.id = tid then { d with expose := b } else d

/-! ## Concrete instances used by the counterexamples -/

/-- A store whose ids sort differently as bytes and as numbers. -/
def exC1 : List Doc := [mkDoc "9" "Ann", mkDoc "10" "Bob"]

/-- A store with one record whose name matches the regex `a.c` but
    does not contain it as a substring. -/
def exC4 : List Doc := [mkDoc "0001" "abc"]

/-- A store with one record that is not third-party. -/
def exC5 : List Doc := [mkDoc "0001" "x"]

/-- A store with one record listing a lowercase spelling of English. -/
def exC6 : List Doc := [{ mkDoc "0001" "x" with languages := ["english"] }]

/-- Migration batch records for the reconciliation bug. -/
def rec8a : LegacyRec := [("id", .vstr "0001"), ("name", .vstr "A")]

/-- Second record of the batch; its write operation fails. -/
def rec8b : LegacyRec := [("id", .vstr "0002"), ("name", .vstr "B")]

/-- The collection already holds the first record (from an earlier
    run at time 3), so its upsert matches without modifying. -/
def store8 : List MDoc := (transform_contact rec8a 3).toList

def exC2store : List Doc :=
  [{ mkDoc "0001" "A" with email := some "a@x.io" }, mkDoc "0002" "B"]

def exC2dup : ContactCreate := { name := "C", email := some "a@x.io" }

def exC2free : ContactCreate := { name := "D" }

def exC4w : List Doc := [mkDoc "0001" "Xabcz"]

def exC6w : List Doc :=
  [{ mkDoc "0001" "x" with languages := ["French", "English"] }]

def exC7store : List Doc := [mkDoc "0001" "Old", mkDoc "0002" "Keep"]

def exC9input : List LegacyRec := [[("id", .vstr "7"), ("name", .vstr "N")]]

/-! ## Order facts for the bytewise string comparison -/
theorem char_toNat_inj {a b : Char} (h : a.toNat = b.toNat) : a = b :=
  Char.eq_of_val_eq (UInt32.toNat.inj h)

theorem charListLt_irrefl (a : List Char) : charListLt a a = false := by
  induction a with
  | nil => rfl
  | cons x as ih => simp [charListLt, ih]

theorem charListLt_asymm (a : List Char) :
    ∀ b, charListLt a b = true → charListLt b a = false := by
  induction a with
  | nil =>
    intro b h
    cases b with
    | nil => rfl
    | cons y bs => rfl
  | cons x as ih =>
    intro b h
    cases b with
    | nil => simp [charListLt] at h
    | cons y bs =>
      simp only [charListLt] at h ⊢
      by_cases hxy : x.toNat < y.toNat
      · have hyx : ¬ y.toNat < x.toNat := by omega
        rw [if_neg hyx, if_pos hxy]
      · by_cases hyx : y.toNat < x.toNat
        · rw [if_neg hxy, if_pos hyx] at h
          cases h
        · rw [if_neg hxy, if_neg hyx] at h
          rw [if_neg hyx, if_neg hxy]
          exact ih bs h

theorem charListLt_trans_false (a : List Char) :
    ∀ b c, charListLt a b = false → charListLt b c = false →
      charListLt a c = false := by
  induction a with
  | nil =>
    intro b c h1 h2
    cases b with
    | nil =>
      cases c with
      | nil => rfl
      | cons z cs => simp [charListLt] at h2
    | cons y bs => simp [charListLt] at h1
  | cons x as ih =>
    intro b c h1 h2
    cases b with
    | nil =>
      cases c with
      | nil => rfl
      | cons z cs => simp [charListLt] at h2
    | cons y bs =>
      cases c with
      | nil => rfl
      | cons z cs =>
        simp only [charListLt] at h1 h2 ⊢
        by_cases hxy : x.toNat < y.toNat
        · rw [if_pos hxy] at h1
          cases h1
        · by_cases hyz : y.toNat < z.toNat
          · rw [if_pos hyz] at h2
            cases h2
          · have hxz : ¬ x.toNat < z.toNat := by omega
            rw [if_neg hxz]
            by_cases hzx : z.toNat < x.toNat
            · rw [if_pos hzx]
            · rw [if_neg hzx]
              have hyx : ¬ y.toNat < x.toNat := by omega
              have hzy : ¬ z.toNat < y.toNat := by omega
              rw [if_neg hxy, if_neg hyx] at h1
              rw [if_neg hyz, if_neg hzy] at h2
              exact ih bs cs h1 h2

theorem charListLt_antisymm (a : List Char) :
    ∀ b, charListLt a b = false → charListLt b a = false → a = b := by
  induction a with
  | nil =>
    intro b h1 h2
    cases b with
    | nil => rfl
    | cons y bs => simp [charListLt] at h1
  | cons x as ih =>
    intro b h1 h2
    cases b with
    | nil => simp [charListLt] at h2
    | cons y bs =>
      simp only [charListLt] at h1 h2
      by_cases hxy : x.toNat < y.toNat
      · rw [if_pos hxy] at h1
        cases h1
      · by_cases hyx : y.toNat < x.toNat
        · rw [if_pos hyx] at h2
          cases h2
        · rw [if_neg hxy, if_neg hyx] at h1
          rw [if_neg hyx, if_neg hxy] at h2
          have hx : x = y := char_toNat_inj (by omega)
          cases ih bs h1 h2
          rw [hx]

theorem strLt_trans_false {s t u : String} (h1 : strLt s t = false)
    (h2 : strLt t u = false) : strLt s u = false :=
  charListLt_trans_false s.data t.data u.data h1 h2

theorem strLt_asymm {s t : String} (h : strLt s t = true) :
    strLt t s = false :=
  charListLt_asymm s.data t.data h

theorem strLt_antisymm {s t : String} (h1 : strLt s t = false)
    (h2 : strLt t s = false) : s = t := by
  cases s with
  | mk ds =>
    cases t with
    | mk dt =>
      have : ds = dt := charListLt_antisymm ds dt h1 h2
      rw [this]

/-- The fold of `maxById`, started from a seed, returns a maximal
    element among the seed and the list. -/
theorem maxById_go (l : List Doc) :
    ∀ m0 : Doc,
      ∃ m, l.foldl (fun acc d =>
          match acc with
          | none => some d
          | some mm => if strLt mm.id d.id then some d else some mm)
          (some m0) = some m ∧
        (m = m0 ∨ m ∈ l) ∧ strLt m.id m0.id = false ∧
        ∀ x ∈ l, strLt m.id x.id = false := by
  induction l with
  | nil =>
    intro m0
    exact ⟨m0, rfl, Or.inl rfl, charListLt_irrefl m0.id.data, by simp⟩
  | cons a l ih =>
    intro m0
    simp only [List.foldl]
    cases h : strLt m0.id a.id with
    | true =>
      rw [if_pos rfl]
      obtain ⟨m, hm, hmem, hge, hall⟩ := ih a
      refine ⟨m, hm, ?_, ?_, ?_⟩
      · rcases hmem with rfl | hmem
        · exact Or.inr (by simp)
        · exact Or.inr (List.mem_cons_of_mem _ hmem)
      · have ha : strLt a.id m0.id = false := strLt_asymm h
        exact strLt_trans_false hge ha
      · intro x hx
        rcases List.mem_cons.mp hx with rfl | hx
        · exact hge
        · exact hall x hx
    | false =>
      rw [if_neg Bool.false_ne_true]
      obtain ⟨m, hm, hmem, hge, hall⟩ := ih m0
      refine ⟨m, hm, ?_, hge, ?_⟩
      · rcases hmem with rfl | hmem
        · exact Or.inl rfl
        · exact Or.inr (List.mem_cons_of_mem _ hmem)
      · intro x hx
        rcases List.mem_cons.mp hx with rfl | hx
        · exact strLt_trans_false hge h
        · exact hall x hx

/-- Lemma: `maxById` on a nonempty store returns a stored document whose id
    is maximal in the bytewise order. -/
theorem maxById_spec (a : Doc) (l : List Doc) :
    ∃ m, maxById (a :: l) = some m ∧ m ∈ a :: l ∧
      ∀ x ∈ a :: l, strLt m.id x.id = false := by
  obtain ⟨m, hm, hmem, hge, hall⟩ := maxById_go l a
  refine ⟨m, hm, ?_, ?_⟩
  · rcases hmem with rfl | hmem
    · exact by simp
    · exact List.mem_cons_of_mem _ hmem
  · intro x hx
    rcases List.mem_cons.mp hx with rfl | hx
    · exact hge
    · exact hall x hx

/-! ## Sort model lemmas -/
theorem insertLe_perm (le : α → α → Bool) (a : α) (l : List α) :
    (insertLe le a l).Perm (a :: l) := by
  induction l with
  | nil => exact List.Perm.refl _
  | cons b bs ih =>
    simp only [insertLe]
    by_cases h : le a b = true
    · rw [if_pos h]
    · rw [if_neg h]
      exact (ih.cons b).trans (List.Perm.swap a b bs)

theorem sortByLe_perm (le : α → α → Bool) (l : List α) :
    (sortByLe le l).Perm l := by
  induction l with
  | nil => exact List.Perm.refl _
  | cons a as ih =>
    exact (insertLe_perm le a (sortByLe le as)).trans (ih.cons a)

theorem mem_sortByLe (le : α → α → Bool) (l : List α) (x : α) :
    x ∈ sortByLe le l ↔ x ∈ l :=
  (sortByLe_perm le l).mem_iff

theorem pairwise_insertLe (le : α → α → Bool)
    (htot : ∀ a b, le a b = false → le b a = true)
    (htrans : ∀ a b c, le a b = true → le b c = true → le a c = true)
    (a : α) (l : List α) (h : l.Pairwise (fun x y => le x y = true)) :
    (insertLe le a l).Pairwise (fun x y => le x y = true) := by
  induction l with
  | nil => simp [insertLe]
  | cons b bs ih =>
    rcases List.pairwise_cons.mp h with ⟨hb, hbs⟩
    simp only [insertLe]
    by_cases hab : le a b = true
    · rw [if_pos hab]
      refine List.pairwise_cons.mpr ⟨?_, h⟩
      intro x hx
      rcases List.mem_cons.mp hx with rfl | hx
      · exact hab
      · exact htrans a b x hab (hb x hx)
    · rw [if_neg hab]
      refine List.pairwise_cons.mpr ⟨?_, ih hbs⟩
      intro x hx
      have hx2 := (insertLe_perm le a bs).mem_iff.mp hx
      rcases List.mem_cons.mp hx2 with rfl | hx2
      · exact htot _ _ (Bool.eq_false_iff.mpr hab)
      · exact hb x hx2

theorem pairwise_sortByLe (le : α → α → Bool)
    (htot : ∀ a b, le a b = false → le b a = true)
    (htrans : ∀ a b c, le a b = true → le b c = true → le a c = true)
    (l : List α) :
    (sortByLe le l).Pairwise (fun x y => le x y = true) := by
  induction l with
  | nil => exact List.Pairwise.nil
  | cons a as ih => exact pairwise_insertLe le htot htrans a (sortByLe le as) ih

theorem insertLe_map (le : α → α → Bool) (f : α → α)
    (hpres : ∀ x y, le (f x) (f y) = le x y) (a : α) (l : List α) :
    insertLe le (f a) (l.map f) = (insertLe le a l).map f := by
  induction l with
  | nil => rfl
  | cons b bs ih =>
    simp only [List.map_cons, insertLe, hpres]
    by_cases h : le a b = true
    · rw [if_pos h, if_pos h, List.map_cons, List.map_cons]
    · rw [if_neg h, if_neg h, List.map_cons, ih]

theorem sortByLe_map (le : α → α → Bool) (f : α → α)
    (hpres : ∀ x y, le (f x) (f y) = le x y) (l : List α) :
    sortByLe le (l.map f) = (sortByLe le l).map f := by
  induction l with
  | nil => rfl
  | cons a as ih => simp only [List.map_cons, sortByLe, ih, insertLe_map le f hpres]

theorem strLe_total (a b : String) (h : strLe a b = false) :
    strLe b a = true := by
  simp only [strLe, Bool.not_eq_true'] at h
  simp only [strLe, Bool.not_eq_true']
  exact charListLt_asymm b.data a.data (by simpa using h)

theorem strLe_trans (a b c : String) (h1 : strLe a b = true)
    (h2 : strLe b c = true) : strLe a c = true := by
  simp only [strLe, Bool.not_eq_true'] at h1 h2 ⊢
  exact charListLt_trans_false c.data b.data a.data h2 h1

/-! ## Regex and language-union lemmas -/
theorem containsCI_nil (hay : List Char) : containsCI [] hay = true := by
  cases hay with
  | nil => rfl
  | cons c cs => simp [containsCI, isPrefixCI]

theorem matchHere_lit (pat : List Char) :
    ∀ hay, matchHere (pat.map RTok.lit) hay = isPrefixCI pat hay := by
  induction pat with
  | nil => intro hay; rfl
  | cons p ps ih =>
    intro hay
    cases hay with
    | nil => rfl
    | cons c cs => simp [matchHere, isPrefixCI, tokMatch, ih]

theorem regexSearch_lit (pat : List Char) :
    ∀ hay, regexSearch (pat.map RTok.lit) hay = containsCI pat hay := by
  intro hay
  induction hay with
  | nil => simp [regexSearch, containsCI, matchHere_lit]
  | cons c cs ih => simp [regexSearch, containsCI, matchHere_lit, ih]

theorem compileRegex_lit (s : String)
    (hfree : ∀ c ∈ s.data, isRegexMeta c = false) :
    compileRegex s = s.data.map RTok.lit := by
  unfold compileRegex
  refine List.map_congr_left ?_
  intro c hc
  have h := hfree c hc
  simp only [isRegexMeta, Bool.or_eq_false_iff, beq_eq_false_iff_ne] at h
  rw [if_neg h.1.1.1.1.1.1.1.1.1.1.2]

theorem regexSearch_of_meta_free (s : String)
    (hfree : ∀ c ∈ s.data, isRegexMeta c = false) (hay : List Char) :
    regexSearch (compileRegex s) hay = containsCI s.data hay := by
  rw [compileRegex_lit s hfree, regexSearch_lit]

/-- The collected language union of `get_all_languages`. -/
theorem collectLangs_mem (store : List Doc) (x : String) :
    ∀ acc : List String,
      (x ∈ store.foldl (fun acc d =>
        if d.languages ≠ [] then acc ++ d.languages else acc) acc) ↔
      (x ∈ acc ∨ ∃ d ∈ store, x ∈ d.languages) := by
  induction store with
  | nil => intro acc; simp
  | cons a l ih =>
    intro acc
    simp only [List.foldl]
    by_cases ha : a.languages = []
    · rw [if_neg (by simp [ha]), ih]
      simp [ha]
    · rw [if_pos (by simp [ha]), ih]
      simp only [List.mem_append, List.mem_cons]
      constructor
      · rintro ((h | h) | ⟨d, hd, hx⟩)
        · exact Or.inl h
        · exact Or.inr ⟨a, Or.inl rfl, h⟩
        · exact Or.inr ⟨d, Or.inr hd, hx⟩
      · rintro (h | ⟨d, (rfl | hd), hx⟩)
        · exact Or.inl (Or.inl h)
        · exact Or.inl (Or.inr hx)
        · exact Or.inr ⟨d, hd, hx⟩

/-! ## First-match replacement lemmas -/
theorem findDoc_replaceFirstBy_self (store : List Doc) (cid : String)
    (f : Doc → Doc) (d : Doc) (hf : findDoc store cid = some d)
    (hid : (f d).id = d.id) :
    findDoc (replaceFirstBy (fun x => x.id == cid) f store) cid = some (f d) := by
  induction store with
  | nil => simp [findDoc] at hf
  | cons a l ih =>
    cases ha : a.id == cid with
    | true =>
      simp only [findDoc, List.find?_cons, ha] at hf
      injection hf with hf
      subst hf
      simp only [replaceFirstBy, ha, if_true, findDoc, List.find?_cons, hid]
    | false =>
      simp only [findDoc, List.find?_cons, ha] at hf
      simp only [replaceFirstBy, ha, Bool.false_eq_true, if_false, findDoc,
        List.find?_cons]
      exact ih hf

theorem findDoc_replaceFirstBy_other (store : List Doc) (cid : String)
    (f : Doc → Doc) (hid : ∀ x, (f x).id = x.id) (cid2 : String)
    (hne : cid2 ≠ cid) :
    findDoc (replaceFirstBy (fun x => x.id == cid) f store) cid2 =
      findDoc store cid2 := by
  induction store with
  | nil => rfl
  | cons a l ih =>
    cases ha : a.id == cid with
    | true =>
      rw [beq_iff_eq] at ha
      have h1 : ((f a).id == cid2) = false := by
        simp only [hid a, ha, beq_eq_false_iff_ne]
        exact fun h => hne h.symm
      have h2 : (cid == cid2) = false := by
        simp only [beq_eq_false_iff_ne]
        exact fun h => hne h.symm
      simp only [replaceFirstBy, ha, beq_self_eq_true, if_true, findDoc,
        List.find?_cons, h1, h2]
    | false =>
      simp only [replaceFirstBy, ha, Bool.false_eq_true, if_false, findDoc,
        List.find?_cons]
      cases hb : a.id == cid2 with
      | true => rfl
      | false => exact ih

/-! ## Duplicate-email characterizations -/
theorem create_dup_iff (store : List Doc) (c : ContactCreate) (now : Nat) :
    ((create_contact store c now).2 = .dup ↔
      ∃ e, c.email = some e ∧ e ≠ "" ∧ ∃ d ∈ store, d.email = some e) := by
  cases hc : c.email with
  | none => simp [create_contact, hc]
  | some e =>
    simp only [create_contact, hc]
    cases hcond : (decide (e ≠ "")) && store.any (fun d => d.email == some e) with
    | false =>
      simp only [hcond, Bool.false_eq_true, if_false]
      simp only [Bool.and_eq_false_iff, decide_eq_false_iff_not, not_not,
        List.any_eq_false, beq_iff_eq] at hcond
      constructor
      · intro h
        cases h
      · rintro ⟨e2, he2, hne2, d, hdm, hde⟩
        injection he2 with he2
        subst he2
        rcases hcond with h1 | h2
        · exact absurd h1 hne2
        · exact absurd hde (h2 d hdm)
    | true =>
      simp only [hcond, if_true]
      simp only [Bool.and_eq_true, decide_eq_true_eq, List.any_eq_true,
        beq_iff_eq] at hcond
      obtain ⟨hne, d, hdm, hde⟩ := hcond
      exact ⟨fun _ => ⟨e, rfl, hne, d, hdm, hde⟩, fun _ => trivial⟩

theorem create_dup_frame (store : List Doc) (c : ContactCreate) (now : Nat)
    (h : (create_contact store c now).2 = .dup) :
    (create_contact store c now).1 = store := by
  cases hc : c.email with
  | none => simp [create_contact, hc] at h
  | some e =>
    simp only [create_contact, hc] at h ⊢
    cases hcond : (decide (e ≠ "")) && store.any (fun d => d.email == some e) with
    | false =>
      rw [hcond] at h
      simp at h
    | true =>
      simp

theorem create_ok_of_falsy (store : List Doc) (c : ContactCreate) (now : Nat)
    (h : optTruthy c.email = false) :
    ∃ d, (create_contact store c now).2 = .ok d := by
  cases hc : c.email with
  | none => simp [create_contact, hc]
  | some e =>
    rw [hc] at h
    simp only [optTruthy, ne_eq, decide_not, Bool.not_eq_false',
      decide_eq_true_eq] at h
    simp [create_contact, hc, h]

theorem update_dup_iff (store : List Doc) (cid : String) (u : ContactUpdate)
    (now : Nat) :
    ((update_contact store cid u now).2 = .dup ↔
      (findDoc store cid).isSome ∧
      ∃ e, u.email = some (some e) ∧ e ≠ "" ∧
        ∃ d ∈ store, d.email = some e ∧ d.id ≠ cid) := by
  cases hf : findDoc store cid with
  | none => simp [update_contact, hf]
  | some d0 =>
    simp only [update_contact, hf, Option.isSome_some, true_and]
    cases hu : u.email with
    | none =>
      simp only [updDupHit, hu, Bool.false_eq_true, if_false]
      cases hf2 : findDoc (replaceFirstBy (fun d => d.id == cid)
          (applyUpdate u now) store) cid <;> simp [hf2, hu]
    | some oe =>
      cases oe with
      | none =>
        simp only [updDupHit, hu, Bool.false_eq_true, if_false]
        cases hf2 : findDoc (replaceFirstBy (fun d => d.id == cid)
            (applyUpdate u now) store) cid <;> simp [hf2, hu]
      | some e =>
        simp only [updDupHit, hu]
        cases hcond : (decide (e ≠ "")) &&
            store.any (fun d => d.email == some e && d.id != cid) with
        | false =>
          simp only [hcond, Bool.false_eq_true, if_false]
          simp only [Bool.and_eq_false_iff, decide_eq_false_iff_not, not_not,
            List.any_eq_false, Bool.and_eq_true, beq_iff_eq, bne_iff_ne,
            not_and, not_not] at hcond
          constructor
          · intro h
            rcases hf2 : findDoc (replaceFirstBy (fun d => d.id == cid)
                (applyUpdate u now) store) cid with _ | d2 <;> rw [hf2] at h <;>
              cases h
          · rintro ⟨e2, he2, hne2, d, hdm, hde, hdi⟩
            injection he2 with he2
            injection he2 with he2
            subst he2
            rcases hcond with h1 | h2
            · exact absurd h1 hne2
            · exact absurd (h2 d hdm hde) hdi
        | true =>
          simp only [hcond, if_true]
          simp only [Bool.and_eq_true, decide_eq_true_eq, List.any_eq_true,
            beq_iff_eq, bne_iff_ne] at hcond
          obtain ⟨hne, d, hdm, hde, hdi⟩ := hcond
          exact ⟨fun _ => ⟨e, rfl, hne, d, hdm, hde, hdi⟩, fun _ => trivial⟩

theorem update_dup_frame (store : List Doc) (cid : String) (u : ContactUpdate)
    (now : Nat) (h : (update_contact store cid u now).2 = .dup) :
    (update_contact store cid u now).1 = store := by
  cases hf : findDoc store cid with
  | none => simp [update_contact, hf] at h
  | some d0 =>
    simp only [update_contact, hf] at h ⊢
    cases hcond : updDupHit store cid u with
    | false =>
      rw [hcond] at h
      simp only [Bool.false_eq_true, if_false] at h
      rcases hf2 : findDoc (replaceFirstBy (fun d => d.id == cid)
          (applyUpdate u now) store) cid with _ | d2 <;> rw [hf2] at h <;> cases h
    | true =>
      simp

theorem to_optional_absent (ov : Option Value)
    (h : ov = none ∨ ov = some .vnull ∨ ov = some (.vstr "") ∨
      ov = some (.vstr "null")) :
    to_optional' ov = none := by
  rcases h with h | h | h | h <;> simp [h, to_optional', to_optional]

/-- C7: updating only the name rewrites the stored record to one that
    is byte-identical except for the new `name` and the refreshed
    `updated_at` (in particular `id` and `created_at` are untouched),
    and every other stored record is unchanged. -/
theorem C7_update_name_frame (store : List Doc) (cid x : String) (now : Nat) (d : Doc)
    (hf : findDoc store cid = some d) :
    update_contact store cid (nameOnly x) now =
      (replaceFirstBy (fun e => e.id == cid)
        (fun e => { e with name := x, updated_at := now }) store,
       .ok { d with name := x, updated_at := now }) ∧
    ∀ cid2, cid2 ≠ cid →
      findDoc (update_contact store cid (nameOnly x) now).1 cid2 =
        findDoc store cid2 := by
  have happ : applyUpdate (nameOnly x) now =
      fun e => { e with name := x, updated_at := now } := rfl
  have hself := findDoc_replaceFirstBy_self store cid
    (fun e => { e with name := x, updated_at := now }) d hf rfl
  have hmain : update_contact store cid (nameOnly x) now =
      (replaceFirstBy (fun e => e.id == cid)
        (fun e => { e with name := x, updated_at := now }) store,
       .ok { d with name := x, updated_at := now }) := by
    simp only [update_contact, hf]
    rw [show updDupHit store cid (nameOnly x) = false from rfl]
    simp only [Bool.false_eq_true, if_false, happ]
    rw [hself]
  refine ⟨hmain, fun cid2 hne => ?_⟩
  rw [hmain]
  exact findDoc_replaceFirstBy_other store cid
    (fun e => { e with name := x, updated_at := now }) (fun e => rfl) cid2 hne

/-- C3: `transform_contact` string-casts the legacy id (empty when
    absent), passes sequence-valued `languages`/`tags` through, splits
    and trims comma strings dropping empty segments, turns null, absent
    and empty multi-values into the empty sequence, normalizes scalar
    empty-string/null/"null" to absent, always sets `expose` to true,
    and maps the spec's example record accordingly. -/
theorem C3_transform_contact :
    (∀ (old : LegacyRec) (now : Nat) (c : MDoc),
      transform_contact old now = some c →
      (lookupV old "id" = none → c._id = "") ∧
      (∀ v, lookupV old "id" = some v → c._id = pyStr v) ∧
      (∀ l, lookupV old "languages" = some (.vlist l) → c.languages = l) ∧
      (∀ s, lookupV old "languages" = some (.vstr s) →
        c.languages = ((pySplitComma s).map pyStrip).filter (fun i => i ≠ "")) ∧
      ((lookupV old "languages" = none ∨ lookupV old "languages" = some .vnull ∨
        lookupV old "languages" = some (.vstr "")) → c.languages = []) ∧
      (∀ l, lookupV old "tags" = some (.vlist l) → c.tags = l) ∧
      (∀ s, lookupV old "tags" = some (.vstr s) →
        c.tags = ((pySplitComma s).map pyStrip).filter (fun i => i ≠ "")) ∧
      ((lookupV old "tags" = none ∨ lookupV old "tags" = some .vnull ∨
        lookupV old "tags" = some (.vstr "")) → c.tags = []) ∧
      (∀ k, k ∈ scalarKeys →
        (lookupV old k = none ∨ lookupV old k = some .vnull ∨
         lookupV old k = some (.vstr "") ∨ lookupV old k = some (.vstr "null")) →
        scalarFieldOf c k = none) ∧
      c.expose = true) ∧
    (∀ now, ∃ c, transform_contact exC3 now = some c ∧ c._id = "42" ∧
      c.languages = ["English", "French"] ∧ c.tags = [] ∧ c.expose = true) := by
  constructor
  · intro old now c h
    revert h
    cases hn : dictGet old "name" (.vstr "") with
    | vstr nm =>
      simp only [transform_contact, hn]
      intro h
      injection h with h
      subst h
      refine ⟨?_, ?_, ?_, ?_, ?_, ?_, ?_, ?_, ?_, rfl⟩
      · intro h0
        simp [dictGet, h0, pyStr]
      · intro v h0
        simp [dictGet, h0]
      · intro l h0
        simp [h0, to_array]
      · intro s h0
        by_cases hs : s = "" <;>
          simp [h0, to_array, hs, pySplitComma, splitOnChar, pyStrip]
      · rintro (h0 | h0 | h0) <;> simp [h0, to_array]
      · intro l h0
        simp [h0, to_array]
      · intro s h0
        by_cases hs : s = "" <;>
          simp [h0, to_array, hs, pySplitComma, splitOnChar, pyStrip]
      · rintro (h0 | h0 | h0) <;> simp [h0, to_array]
      · intro k hk h0
        fin_cases hk <;>
          · simp only [scalarFieldOf, if_true, if_neg, reduceIte]
            exact to_optional_absent _ h0
    | vnull => intro h; simp [transform_contact, hn] at h
    | vbool b => intro h; simp [transform_contact, hn] at h
    | vint n => intro h; simp [transform_contact, hn] at h
    | vlist l => intro h; simp [transform_contact, hn] at h
  · intro now
    exact ⟨_, rfl, rfl, rfl, rfl, rfl⟩

/-- C1 (amended): the next contact id is "0001" on an empty store;
    otherwise it is computed from the *bytewise greatest* stored id
    (not the numeric maximum): its integer parse plus one, zero-padded,
    falling back to the document count plus one when that id does not
    parse; and every successful create assigns exactly this id. -/
theorem C1_next_id_amended (store : List Doc) (d : Doc) (c : ContactCreate)
    (now : Nat) (st2 : List Doc) (nd : Doc) :
    get_next_contact_id [] = "0001" ∧
    (d ∈ store → (∀ d2 ∈ store, strLe d2.id d.id = true) →
      get_next_contact_id store =
        (match pyInt d.id with
         | some n => pad04 (n + 1)
         | none => pad04 ((store.length : Int) + 1))) ∧
    (create_contact store c now = (st2, .ok nd) →
      nd.id = get_next_contact_id store) := by
  refine ⟨rfl, ?_, ?_⟩
  · intro hmem hmax
    cases store with
    | nil => cases hmem
    | cons a l =>
      obtain ⟨m, hm, hmemM, hallM⟩ := maxById_spec a l
      have h1 : strLt m.id d.id = false := hallM d hmem
      have h2 : strLt d.id m.id = false := by
        have hm2 := hmax m hmemM
        simpa [strLe] using hm2
      have hid : d.id = m.id := strLt_antisymm h2 h1
      unfold get_next_contact_id
      rw [hm, hid]
  · intro h
    cases hc : c.email with
    | none =>
      simp only [create_contact, hc] at h
      injection h with hst hres
      injection hres with hres
      rw [← hres]
      rfl
    | some e =>
      cases hcond : (decide (e ≠ "")) && store.any (fun x => x.email == some e) with
      | true =>
        simp only [create_contact, hc, hcond, if_pos rfl] at h
        injection h with hst hres
        cases hres
      | false =>
        simp only [create_contact, hc, hcond,
          if_neg Bool.false_ne_true] at h
        injection h with hst hres
        injection hres with hres
        rw [← hres]
        rfl

/-- Witness for C1 at concrete stores. -/
theorem C1_next_id_amended_witness :
    get_next_contact_id [mkDoc "0001" "A"] = "0002" ∧
    (docOfCreate { name := "X" } "0001" 0).id =
      get_next_contact_id ([] : List Doc) := by
  constructor
  · have h := (C1_next_id_amended [mkDoc "0001" "A"] (mkDoc "0001" "A")
      { name := "X" } 0 [] (mkDoc "0" "")).2.1 (by decide) (by decide)
    rw [h]
    decide
  · exact (C1_next_id_amended [] (mkDoc "0" "") { name := "X" } 0
      ([docOfCreate { name := "X" } "0001" 0])
      (docOfCreate { name := "X" } "0001" 0)).2.2 rfl

/-! ## Counterexamples and the reconciliation bug -/
/-- C1: the claim predicts the successor of the maximum *numeric* id,
    but `get_next_contact_id` takes the document whose id is bytewise
    greatest (`find_one(sort=[("_id", -1)])`): on the store with ids
    `"9"` and `"10"` the code parses `"9"` and returns `"0010"`, while
    the claimed value is `"0011"`. -/
theorem C1_counterexample :
    get_next_contact_id exC1 ≠ claimNextId exC1 ∧
    get_next_contact_id exC1 = "0010" ∧ claimNextId exC1 = "0011" := by
  decide

/-- C4: the claim predicts substring semantics for every search
    string, but the string is passed to `$regex` unescaped: searching
    `"a.c"` matches the record named `"abc"` (total 1) although no
    field contains `"a.c"` as a substring. -/
theorem C4_counterexample :
    (get_contacts exC4 (some "a.c") none none none none none none
      "name" 0 20).2 = 1 ∧
    claimSearchMatches "a.c" (mkDoc "0001" "abc") = false := by
  decide

/-- C5: the claim predicts an empty result when `is_third_party=true`
    and `exclude_third_party=true` are both supplied, but the
    `exclude_third_party` branch overwrites the `is_third_party` query
    key, so the non-third-party record is returned and the total
    is 1. -/
theorem C5_counterexample :
    (get_contacts exC5 none none none none none (some true) (some true)
      "name" 0 20).2 = 1 ∧
    (get_contacts exC5 none none none none none (some true) (some true)
      "name" 0 20).1 = exC5 ∧
    (exC5.filter (fun d => d.is_third_party == true &&
      !(d.is_third_party == true))).length = 0 := by
  decide

/-- C6: the claim says `"English"` is removed regardless of case, but
    `all_languages.discard("English")` removes only the exact string:
    a record listing `"english"` leaves `"english"` (a casing of
    English) in the result. -/
theorem C6_counterexample :
    get_all_languages exC6 = ["english"] ∧
    "english".data.map Char.toLower = "English".data.map Char.toLower := by
  decide

/-- C8: the counters do not reconcile in the `BulkWriteError` branch.
    With `skip_duplicates=true`, a batch of two records where the
    first already exists (its op matches without inserting) and the
    second op write-fails: `inserted = updated = skipped = 0` and
    `errors = 1`, so the sum is 1 while `total = 2` — the branch never
    recomputes `skipped`. -/
theorem C8_reconciliation_fails :
    ((migrate_contactsO [rec8a, rec8b] store8 true 5 (fun i => i == 1)).2.inserted +
     (migrate_contactsO [rec8a, rec8b] store8 true 5 (fun i => i == 1)).2.updated +
     (migrate_contactsO [rec8a, rec8b] store8 true 5 (fun i => i == 1)).2.skipped +
     (migrate_contactsO [rec8a, rec8b] store8 true 5 (fun i => i == 1)).2.errors ≠
     (migrate_contactsO [rec8a, rec8b] store8 true 5 (fun i => i == 1)).2.total) ∧
    (migrate_contactsO [rec8a, rec8b] store8 true 5 (fun i => i == 1)).2.total = 2 := by
  decide

/-- C6 (amended): `get_all_languages` is the lexicographically sorted
    deduplicated union of all stored language values with the *exact*
    string "English" removed; other casings of English are kept (see
    the counterexample). -/
theorem C6_languages_amended (store : List Doc) :
    "English" ∉ get_all_languages store ∧
    (∀ l, l ≠ "English" →
      ((l ∈ get_all_languages store) ↔ ∃ d ∈ store, l ∈ d.languages)) ∧
    (get_all_languages store).Pairwise (fun a b => strLe a b = true) ∧
    (get_all_languages store).Nodup := by
  have hmem : ∀ x, x ∈ get_all_languages store ↔
      (x ≠ "English" ∧ ∃ d ∈ store, x ∈ d.languages) := by
    intro x
    unfold get_all_languages
    rw [mem_sortByLe, List.mem_filter, List.mem_dedup, collectLangs_mem]
    simp only [List.not_mem_nil, false_or, decide_eq_true_eq, ne_eq]
    exact and_comm
  refine ⟨?_, ?_, ?_, ?_⟩
  · intro h
    exact ((hmem _).mp h).1 rfl
  · intro l hl
    rw [hmem]
    exact ⟨fun h => h.2, fun h => ⟨hl, h⟩⟩
  · exact pairwise_sortByLe strLe strLe_total strLe_trans _
  · exact (sortByLe_perm strLe _).nodup_iff.mpr
      ((List.nodup_dedup _).filter _)

/-- C5 (amended): when both an explicit `is_third_party` filter and
    `exclude_third_party=true` are supplied, the mask *overwrites* the
    explicit filter instead of combining by AND: the result equals the
    result with the explicit filter dropped, and it consists exactly of
    the records whose `is_third_party` is not true. -/
theorem C5_exclude_mask (store : List Doc) (search tag language : Option String)
    (ie ii : Option Bool) (b : Bool) (sb : String) (skip limit : Nat) :
    get_contacts store search tag language ie ii (some b) (some true)
        sb skip limit =
      get_contacts store search tag language ie ii none (some true)
        sb skip limit ∧
    (get_contacts store none none none none none (some b) (some true)
        sb skip limit).2 =
      (store.filter (fun d => !d.is_third_party)).length ∧
    ∀ d ∈ (get_contacts store none none none none none (some b) (some true)
        sb skip limit).1, d.is_third_party = false := by
  have hq : buildQuery search tag language ie ii (some b) (some true) =
      buildQuery search tag language ie ii none (some true) := by
    simp [buildQuery]
  have hq0 : ∀ dd : Doc,
      matchesQuery (buildQuery none none none none none (some b) (some true)) dd =
        !dd.is_third_party := by
    intro dd
    simp [matchesQuery, buildQuery, truthyOpt]
  refine ⟨?_, ?_, ?_⟩
  · unfold get_contacts
    rw [hq]
  · exact congrArg List.length (List.filter_congr (fun d _ => hq0 d))
  · intro d hd
    have hd2 : d ∈ ((sortByLe (docLe sb) (store.filter (matchesQuery
        (buildQuery none none none none none (some b)
          (some true))))).drop skip).take limit := hd
    have h1 := List.drop_subset _ _ (List.take_subset _ _ hd2)
    rw [mem_sortByLe] at h1
    have h2 := (List.mem_filter.mp h1).2
    rw [hq0 d] at h2
    simpa using h2

/-- C4 (amended): for every search string free of regex
    metacharacters, listing with that search string returns exactly the
    records in which name, department, a tag, or designation contains
    it as a case-insensitive substring, and the total counts exactly
    those records.  (For general strings the code applies the search
    string as an unescaped regex, see the counterexample.) -/
theorem C4_search_literal (s : String) (hfree : ∀ c ∈ s.data, isRegexMeta c = false)
    (store : List Doc) (sb : String) (skip limit : Nat) :
    (get_contacts store (some s) none none none none none none
        sb skip limit).2 = (store.filter (claimSearchMatches s)).length ∧
    ∀ d ∈ (get_contacts store (some s) none none none none none none
        sb skip limit).1, claimSearchMatches s d = true := by
  have hmq : ∀ dd : Doc,
      matchesQuery (buildQuery (some s) none none none none none none) dd =
        claimSearchMatches s dd := by
    intro dd
    by_cases hs : s = ""
    · subst hs
      simp [matchesQuery, buildQuery, truthyOpt, claimSearchMatches,
        containsCI_nil]
    · have hlit := regexSearch_of_meta_free s hfree
      simp only [matchesQuery, buildQuery, truthyOpt, if_pos hs,
        Bool.and_true, claimSearchMatches, optRegex, arrRegex, hlit]
      cases dd.department <;> cases dd.designation <;>
        simp [hlit, claimSearchMatches]
  refine ⟨?_, ?_⟩
  · exact congrArg List.length (List.filter_congr (fun d _ => hmq d))
  · intro d hd
    have hd2 : d ∈ ((sortByLe (docLe sb) (store.filter (matchesQuery
        (buildQuery (some s) none none none none none
          none)))).drop skip).take limit := hd
    have h1 := List.drop_subset _ _ (List.take_subset _ _ hd2)
    rw [mem_sortByLe] at h1
    have h2 := (List.mem_filter.mp h1).2
    rw [hmq d] at h2
    exact h2

/-! ## Expose-flag invariance -/
theorem matchesQuery_flipExpose (q : Query) (tid : String) (b : Bool)
    (d : Doc) : matchesQuery q (flipExpose tid b d) = matchesQuery q d := by
  unfold flipExpose
  split <;> rfl

theorem docLe_flipExpose (sb : String) (tid : String) (b : Bool)
    (x y : Doc) :
    docLe sb (flipExpose tid b x) (flipExpose tid b y) = docLe sb x y := by
  unfold flipExpose
  split <;> split <;> rfl

theorem id_flipExpose (tid : String) (b : Bool) (d : Doc) :
    (flipExpose tid b d).id = d.id := by
  unfold flipExpose
  split <;> rfl

theorem filter_map_pres (f : α → α) (p : α → Bool)
    (hp : ∀ x, p (f x) = p x) (l : List α) :
    (l.map f).filter p = (l.filter p).map f := by
  induction l with
  | nil => rfl
  | cons a as ih =>
    simp only [List.map_cons, List.filter_cons, hp a]
    cases p a <;> simp [ih]

theorem findDoc_map_pres (f : Doc → Doc) (hid : ∀ x, (f x).id = x.id)
    (store : List Doc) (cid : String) :
    findDoc (store.map f) cid = (findDoc store cid).map f := by
  induction store with
  | nil => rfl
  | cons a l ih =>
    simp only [List.map_cons, findDoc, List.find?_cons, hid a]
    cases ha : (a.id == cid) with
    | true => rfl
    | false => exact ih

/-- C10: the expose flag never affects any read operation: flipping
    the `expose` value of any stored contact changes neither the ids
    returned by the list operation nor its total, and `get_contact`
    still finds the same record by id. -/
theorem C10_expose_no_read_effect (store : List Doc) (tid : String) (b : Bool)
    (search tag language : Option String) (ie ii itp etp : Option Bool)
    (sb : String) (skip limit : Nat) (cid : String) :
    ((get_contacts (store.map (flipExpose tid b)) search tag language
        ie ii itp etp sb skip limit).1.map Doc.id =
      (get_contacts store search tag language ie ii itp etp
        sb skip limit).1.map Doc.id) ∧
    ((get_contacts (store.map (flipExpose tid b)) search tag language
        ie ii itp etp sb skip limit).2 =
      (get_contacts store search tag language ie ii itp etp
        sb skip limit).2) ∧
    ((get_contact (store.map (flipExpose tid b)) cid).map Doc.id =
      (get_contact store cid).map Doc.id) ∧
    ((get_contact (store.map (flipExpose tid b)) cid).isSome =
      (get_contact store cid).isSome) := by
  have hfil : (store.map (flipExpose tid b)).filter
      (matchesQuery (buildQuery search tag language ie ii itp etp)) =
      (store.filter
        (matchesQuery (buildQuery search tag language ie ii itp etp))).map
        (flipExpose tid b) :=
    filter_map_pres _ _
      (matchesQuery_flipExpose (buildQuery search tag language ie ii itp etp)
        tid b) store
  refine ⟨?_, ?_, ?_, ?_⟩
  · show (((sortByLe (docLe sb) ((store.map (flipExpose tid b)).filter
        (matchesQuery (buildQuery search tag language ie ii itp
          etp)))).drop skip).take limit).map Doc.id = _
    rw [hfil, sortByLe_map (docLe sb) (flipExpose tid b)
      (docLe_flipExpose sb tid b)]
    rw [← List.map_drop, ← List.map_take, List.map_map]
    exact List.map_congr_left (fun d _ => id_flipExpose tid b d)
  · show ((store.map (flipExpose tid b)).filter
      (matchesQuery (buildQuery search tag language ie ii itp
        etp))).length = _
    rw [hfil, List.length_map]
    rfl
  · rw [show get_contact (store.map (flipExpose tid b)) cid =
      findDoc (store.map (flipExpose tid b)) cid from rfl,
      show get_contact store cid = findDoc store cid from rfl,
      findDoc_map_pres (flipExpose tid b) (id_flipExpose tid b) store cid]
    cases findDoc store cid with
    | none => rfl
    | some d =>
      show some (flipExpose tid b d).id = some d.id
      rw [id_flipExpose]
  · rw [show get_contact (store.map (flipExpose tid b)) cid =
      findDoc (store.map (flipExpose tid b)) cid from rfl,
      show get_contact store cid = findDoc store cid from rfl,
      findDoc_map_pres (flipExpose tid b) (id_flipExpose tid b) store cid]
    cases findDoc store cid <;> rfl

/-! ## Migration pipeline lemmas -/
theorem find?_replaceFirstBy_self (p : α → Bool) (f : α → α) (l : List α)
    (a : α) (hf : l.find? p = some a) (hfa : p (f a) = true) :
    (replaceFirstBy p f l).find? p = some (f a) := by
  induction l with
  | nil => simp at hf
  | cons b bs ih =>
    cases hb : p b with
    | true =>
      simp only [List.find?_cons, hb] at hf
      injection hf with hf
      subst hf
      simp only [replaceFirstBy, hb, if_true, List.find?_cons, hfa]
    | false =>
      simp only [List.find?_cons, hb] at hf
      simp only [replaceFirstBy, hb, Bool.false_eq_true, if_false,
        List.find?_cons]
      exact ih hf

theorem find?_replaceFirstBy_none (p q : α → Bool) (f : α → α) (l : List α)
    (hq : ∀ x, p x = true → q x = false)
    (hqf : ∀ x, p x = true → q (f x) = false) :
    (replaceFirstBy p f l).find? q = l.find? q := by
  induction l with
  | nil => rfl
  | cons b bs ih =>
    cases hb : p b with
    | true =>
      simp only [replaceFirstBy, hb, if_true, List.find?_cons, hq b hb,
        hqf b hb]
    | false =>
      simp only [replaceFirstBy, hb, Bool.false_eq_true, if_false,
        List.find?_cons]
      cases hqb : q b with
      | true => rfl
      | false => exact ih

theorem findM_upsertMig (c : MDoc) (store : List MDoc) (cid : String) :
    findM (upsertMig false c store).1 cid =
      if cid = c._id then some (mergeOld c (findM store c._id))
      else findM store cid := by
  cases hf : findM store c._id with
  | none =>
    simp only [upsertMig, hf]
    by_cases hcid : cid = c._id
    · subst hcid
      unfold findM at hf ⊢
      rw [List.find?_append, hf]
      simp [List.find?_cons, mergeOld]
    · rw [if_neg hcid]
      unfold findM
      rw [List.find?_append]
      have hnone : List.find? (fun d => d._id == cid) [c] = none := by
        simp only [List.find?_cons, List.find?_nil]
        have : (c._id == cid) = false :=
          beq_eq_false_iff_ne.mpr (fun h => hcid h.symm)
        simp [this]
      rw [hnone]
      cases List.find? (fun d => d._id == cid) store <;> rfl
  | some d =>
    simp only [upsertMig, hf]
    by_cases hcid : cid = c._id
    · subst hcid
      rw [if_pos rfl]
      unfold findM at hf ⊢
      exact find?_replaceFirstBy_self (fun x => x._id == c._id)
        (fun _ => { c with created_at := d.created_at }) store d hf (by simp)
    · rw [if_neg hcid]
      unfold findM
      refine find?_replaceFirstBy_none (fun x => x._id == c._id)
        (fun x => x._id == cid) (fun _ => { c with created_at := d.created_at })
        store ?_ ?_
      · intro x hx
        have hx2 : x._id = c._id := by simpa using hx
        show (x._id == cid) = false
        rw [hx2]
        exact beq_eq_false_iff_ne.mpr (fun h => hcid h.symm)
      · intro x hx
        show (c._id == cid) = false
        exact beq_eq_false_iff_ne.mpr (fun h => hcid h.symm)

theorem upsertMig_flags (c : MDoc) (store : List MDoc) :
    (upsertMig false c store).2.1 = (findM store c._id).isNone ∧
    (upsertMig false c store).2.2 = upsertModifies c (findM store c._id) := by
  cases hf : findM store c._id <;> simp [upsertMig, hf, upsertModifies]

theorem transform_contact_time (r : LegacyRec) (t t' : Nat) (c : MDoc)
    (h : transform_contact r t = some c) :
    transform_contact r t' =
      some { c with created_at := t', updated_at := t' } := by
  revert h
  unfold transform_contact
  cases dictGet r "name" (.vstr "") with
  | vstr nm =>
    intro h
    injection h with h
    subst h
    rfl
  | vnull => intro h; simp at h
  | vbool b => intro h; simp at h
  | vint n => intro h; simp at h
  | vlist l => intro h; simp at h

theorem transform_contact_none_time (r : LegacyRec) (t t' : Nat)
    (h : transform_contact r t = none) : transform_contact r t' = none := by
  revert h
  unfold transform_contact
  cases dictGet r "name" (.vstr "") with
  | vstr nm => intro h; simp at h
  | vnull => intro h; rfl
  | vbool b => intro h; rfl
  | vint n => intro h; rfl
  | vlist l => intro h; rfl

theorem transform_contact_stamps (r : LegacyRec) (t : Nat) (c : MDoc)
    (h : transform_contact r t = some c) :
    c.created_at = t ∧ c.updated_at = t := by
  revert h
  unfold transform_contact
  cases dictGet r "name" (.vstr "") with
  | vstr nm =>
    intro h
    injection h with h
    subst h
    exact ⟨rfl, rfl⟩
  | vnull => intro h; simp at h
  | vbool b => intro h; simp at h
  | vint n => intro h; simp at h
  | vlist l => intro h; simp at h

theorem runOps_cons_noFail (c : MDoc) (cs : List MDoc) (store : List MDoc)
    (i : Nat) :
    runOps false (fun _ => false) i (c :: cs) store =
      ((runOps false (fun _ => false) (i + 1) cs (upsertMig false c store).1).1,
       (runOps false (fun _ => false) (i + 1) cs (upsertMig false c store).1).2.1 +
         (if (upsertMig false c store).2.1 then 1 else 0),
       (runOps false (fun _ => false) (i + 1) cs (upsertMig false c store).1).2.2.1 +
         (if (upsertMig false c store).2.2 then 1 else 0),
       (runOps false (fun _ => false) (i + 1) cs (upsertMig false c store).1).2.2.2) :=
  rfl

theorem runOps_find (cs : List MDoc) :
    ∀ (store : List MDoc) (i : Nat) (cid : String),
      (cs.map MDoc._id).Nodup →
      findM (runOps false (fun _ => false) i cs store).1 cid =
        (match cs.find? (fun x => x._id == cid) with
         | some c => some (mergeOld c (findM store cid))
         | none => findM store cid) := by
  induction cs with
  | nil => intro store i cid _; rfl
  | cons c cs ih =>
    intro store i cid hnd
    obtain ⟨hnotin, hnd'⟩ := List.nodup_cons.mp hnd
    rw [runOps_cons_noFail]
    show findM (runOps false (fun _ => false) (i + 1) cs
      (upsertMig false c store).1).1 cid = _
    rw [ih _ (i + 1) cid hnd', List.find?_cons]
    cases hcc : (c._id == cid) with
    | true =>
      have hcid : c._id = cid := beq_iff_eq.mp hcc
      subst hcid
      have hnone : cs.find? (fun x => x._id == c._id) = none := by
        rw [List.find?_eq_none]
        intro x hx
        simp only [beq_iff_eq]
        intro h
        refine hnotin ?_
        rw [← h]
        exact List.mem_map_of_mem MDoc._id hx
      rw [hnone, findM_upsertMig, if_pos rfl]
    | false =>
      have hcid : cid ≠ c._id := fun h => by simp [h] at hcc
      rw [findM_upsertMig, if_neg hcid]

theorem runOps_counts (cs : List MDoc) :
    ∀ (store : List MDoc) (i : Nat),
      (cs.map MDoc._id).Nodup →
      (runOps false (fun _ => false) i cs store).2.1 =
        (cs.filter (fun c => (findM store c._id).isNone)).length ∧
      (runOps false (fun _ => false) i cs store).2.2.1 =
        (cs.filter (fun c => upsertModifies c (findM store c._id))).length ∧
      (runOps false (fun _ => false) i cs store).2.2.2 = 0 := by
  induction cs with
  | nil => intro store i _; exact ⟨rfl, rfl, rfl⟩
  | cons c cs ih =>
    intro store i hnd
    obtain ⟨hnotin, hnd'⟩ := List.nodup_cons.mp hnd
    obtain ⟨h1, h2, h3⟩ := ih (upsertMig false c store).1 (i + 1) hnd'
    rw [runOps_cons_noFail]
    have hpred : ∀ c' ∈ cs,
        findM (upsertMig false c store).1 c'._id = findM store c'._id := by
      intro c' hc'
      rw [findM_upsertMig, if_neg]
      intro h
      refine hnotin ?_
      rw [← h]
      exact List.mem_map_of_mem MDoc._id hc'
    refine ⟨?_, ?_, h3⟩
    · show (runOps false (fun _ => false) (i + 1) cs
          (upsertMig false c store).1).2.1 +
          (if (upsertMig false c store).2.1 then 1 else 0) = _
      rw [h1, (upsertMig_flags c store).1,
        List.filter_congr (fun c' hc' => by rw [hpred c' hc'])]
      cases hpc : (findM store c._id).isNone <;>
        simp [List.filter_cons, hpc]
    · show (runOps false (fun _ => false) (i + 1) cs
          (upsertMig false c store).1).2.2.1 +
          (if (upsertMig false c store).2.2 then 1 else 0) = _
      rw [h2, (upsertMig_flags c store).2,
        List.filter_congr (fun c' hc' => by rw [hpred c' hc'])]
      cases hpc : upsertModifies c (findM store c._id) <;>
        simp [List.filter_cons, hpc]

theorem find?_key_of_mem_nodup {cs : List MDoc}
    (hnd : (cs.map MDoc._id).Nodup) {c : MDoc} (hc : c ∈ cs) :
    cs.find? (fun x => x._id == c._id) = some c := by
  induction cs with
  | nil => cases hc
  | cons a l ih =>
    obtain ⟨hna, hnd'⟩ := List.nodup_cons.mp hnd
    rcases List.mem_cons.mp hc with rfl | hc
    · simp [List.find?_cons]
    · have hne : (a._id == c._id) = false := by
        refine beq_eq_false_iff_ne.mpr (fun h => hna ?_)
        rw [h]
        exact List.mem_map_of_mem MDoc._id hc
      simp only [List.find?_cons, hne]
      exact ih hnd' hc

theorem length_filterMap_of_all_some (f : α → Option β) (l : List α)
    (h : ∀ x ∈ l, (f x).isSome) : (l.filterMap f).length = l.length := by
  induction l with
  | nil => rfl
  | cons a l ih =>
    rcases ho : f a with _ | b
    · have := h a (by simp)
      rw [ho] at this
      cases this
    · simp only [List.filterMap_cons, ho, List.length_cons]
      rw [ih (fun x hx => h x (by simp [hx]))]

theorem filterMap_transform_retime (input : List LegacyRec) (t1 t2 : Nat) :
    input.filterMap (fun r => transform_contact r t2) =
      (input.filterMap (fun r => transform_contact r t1)).map
        (fun c => { c with created_at := t2, updated_at := t2 }) := by
  induction input with
  | nil => rfl
  | cons r rs ih =>
    simp only [List.filterMap_cons]
    cases htr : transform_contact r t1 with
    | none =>
      rw [transform_contact_none_time r t1 t2 htr]
      exact ih
    | some c =>
      rw [transform_contact_time r t1 t2 c htr]
      simp only [List.map_cons]
      rw [ih]

theorem mergeOld_updated_at (c : MDoc) (o : Option MDoc) :
    (mergeOld c o).updated_at = c.updated_at := by
  cases o <;> rfl

theorem migrate_contacts_parts (input : List LegacyRec) (store : List MDoc)
    (t : Nat)
    (hnd : ((input.filterMap (fun r => transform_contact r t)).map
      MDoc._id).Nodup) :
    (migrate_contacts input store false t).1 =
      (runOps false (fun _ => false) 0
        (input.filterMap (fun r => transform_contact r t)) store).1 ∧
    (migrate_contacts input store false t).2.inserted =
      (((input.filterMap (fun r => transform_contact r t)).filter
        (fun c => (findM store c._id).isNone)).length : Int) ∧
    (migrate_contacts input store false t).2.updated =
      (((input.filterMap (fun r => transform_contact r t)).filter
        (fun c => upsertModifies c (findM store c._id))).length : Int) ∧
    (migrate_contacts input store false t).2.total = (input.length : Int) := by
  obtain ⟨hu, hm, he⟩ :=
    runOps_counts (input.filterMap (fun r => transform_contact r t)) store 0 hnd
  unfold migrate_contacts migrate_contactsO
  simp only [he, if_pos rfl, hu, hm]
  exact ⟨rfl, rfl, rfl, rfl⟩

theorem migrate_contacts_find (input : List LegacyRec) (store : List MDoc)
    (t : Nat)
    (hnd : ((input.filterMap (fun r => transform_contact r t)).map
      MDoc._id).Nodup) (cid : String) :
    findM (migrate_contacts input store false t).1 cid =
      (match (input.filterMap (fun r => transform_contact r t)).find?
          (fun x => x._id == cid) with
       | some c => some (mergeOld c (findM store cid))
       | none => findM store cid) := by
  rw [(migrate_contacts_parts input store t hnd).1]
  exact runOps_find _ store 0 cid hnd

/-- C9: re-running the migration with the same input and
    `skip_duplicates=false` at a later clock reports `inserted = 0` and
    `updated = total`, preserves every record's `created_at` from the
    first run, and refreshes `updated_at` to the second run's clock
    (stated for inputs whose records all transform and carry distinct
    ids, as a duplicate id or transform failure falsifies the spec's
    statistics equation). -/
theorem C9_migration_idempotent (input : List LegacyRec) (store : List MDoc) (t1 t2 : Nat)
    (hok : ∀ r ∈ input, (transform_contact r t1).isSome = true)
    (hnd : ((input.filterMap (fun r => transform_contact r t1)).map
      MDoc._id).Nodup)
    (hne : t1 ≠ t2) :
    (migrate_contacts input (migrate_contacts input store false t1).1
      false t2).2.inserted = 0 ∧
    (migrate_contacts input (migrate_contacts input store false t1).1
      false t2).2.updated =
      (migrate_contacts input (migrate_contacts input store false t1).1
        false t2).2.total ∧
    (∀ cid, (findM (migrate_contacts input
        (migrate_contacts input store false t1).1 false t2).1 cid).map
        MDoc.created_at =
      (findM (migrate_contacts input store false t1).1 cid).map
        MDoc.created_at) ∧
    (∀ r ∈ input, ∀ c, transform_contact r t2 = some c →
      (findM (migrate_contacts input
        (migrate_contacts input store false t1).1 false t2).1 c._id).map
        MDoc.updated_at = some t2) := by
  have hcs2 : input.filterMap (fun r => transform_contact r t2) =
      (input.filterMap (fun r => transform_contact r t1)).map
        (fun c => { c with created_at := t2, updated_at := t2 }) :=
    filterMap_transform_retime input t1 t2
  have hid2 : (input.filterMap (fun r => transform_contact r t2)).map
      MDoc._id =
      (input.filterMap (fun r => transform_contact r t1)).map MDoc._id := by
    rw [hcs2, List.map_map]
    exact List.map_congr_left (fun c _ => rfl)
  have hnd2 : ((input.filterMap (fun r => transform_contact r t2)).map
      MDoc._id).Nodup := by
    rw [hid2]
    exact hnd
  have hfindS1 : ∀ c1 ∈ input.filterMap (fun r => transform_contact r t1),
      findM (migrate_contacts input store false t1).1 c1._id =
        some (mergeOld c1 (findM store c1._id)) := by
    intro c1 hc1
    rw [migrate_contacts_find input store t1 hnd c1._id,
      find?_key_of_mem_nodup hnd hc1]
  refine ⟨?_, ?_, ?_, ?_⟩
  · rw [(migrate_contacts_parts input _ t2 hnd2).2.1]
    have hnil : (input.filterMap (fun r => transform_contact r t2)).filter
        (fun c => (findM (migrate_contacts input store false t1).1
          c._id).isNone) = [] := by
      rw [List.filter_eq_nil_iff]
      intro c hc
      rw [hcs2] at hc
      obtain ⟨c1, hc1, rfl⟩ := List.mem_map.mp hc
      have hf := hfindS1 c1 hc1
      show ¬ ((findM (migrate_contacts input store false t1).1
        c1._id).isNone = true)
      rw [hf]
      simp
    rw [hnil]
    rfl
  · rw [(migrate_contacts_parts input _ t2 hnd2).2.2.1,
      (migrate_contacts_parts input _ t2 hnd2).2.2.2]
    have hall : (input.filterMap (fun r => transform_contact r t2)).filter
        (fun c => upsertModifies c
          (findM (migrate_contacts input store false t1).1 c._id)) =
        input.filterMap (fun r => transform_contact r t2) := by
      rw [List.filter_eq_self]
      intro c hc
      have hc' := hc
      rw [hcs2] at hc'
      obtain ⟨c1, hc1, rfl⟩ := List.mem_map.mp hc'
      have hf := hfindS1 c1 hc1
      show upsertModifies { c1 with created_at := t2, updated_at := t2 }
        (findM (migrate_contacts input store false t1).1 c1._id) = true
      rw [hf]
      unfold upsertModifies
      rw [decide_eq_true_iff]
      intro hEq
      have hup := congrArg MDoc.updated_at hEq
      rw [mergeOld_updated_at] at hup
      obtain ⟨r, hr, htr⟩ := List.mem_filterMap.mp hc1
      have hst := (transform_contact_stamps r t1 c1 htr).2
      simp only [hst] at hup
      exact hne (hup.symm)
    rw [hall, hcs2, List.length_map,
      length_filterMap_of_all_some _ _ hok]
  · intro cid
    rw [migrate_contacts_find input _ t2 hnd2 cid]
    cases hfind2 : (input.filterMap (fun r => transform_contact r t2)).find?
        (fun x => x._id == cid) with
    | none => rfl
    | some c2 =>
      have hc2mem := List.mem_of_find?_eq_some hfind2
      have hc2id0 := List.find?_some hfind2
      have hc2id : c2._id = cid := by simpa using hc2id0
      rw [hcs2] at hc2mem
      obtain ⟨c1, hc1, hc12⟩ := List.mem_map.mp hc2mem
      have hf := hfindS1 c1 hc1
      have hc1id : c1._id = cid := by
        have h3 := congrArg MDoc._id hc12
        have h4 : c1._id = c2._id := h3
        rw [h4, hc2id]
      rw [hc1id] at hf
      rw [hf]
      simp [mergeOld]
  · intro r hr c htr
    have hcmem : c ∈ input.filterMap (fun r => transform_contact r t2) :=
      List.mem_filterMap.mpr ⟨r, hr, htr⟩
    rw [migrate_contacts_find input _ t2 hnd2 c._id,
      find?_key_of_mem_nodup hnd2 hcmem]
    simp only [Option.map_some', mergeOld_updated_at]
    exact congrArg some (transform_contact_stamps r t2 c htr).2

/-! ## Claim C2 and the witnesses -/
/-- C2: `create_contact` fails with the duplicate-email error exactly
    when the candidate email is non-empty and already stored (creates
    with absent or empty emails always succeed, twice in a row), and
    `update_contact` fails with it exactly when the payload sets the
    email to a non-empty value held by a different record; both leave
    the store unchanged on the failing call. -/
theorem C2_duplicate_email (store : List Doc) (c c2 : ContactCreate)
    (cid : String) (u : ContactUpdate) (now now2 : Nat) :
    ((create_contact store c now).2 = .dup ↔
      ∃ e, c.email = some e ∧ e ≠ "" ∧ ∃ d ∈ store, d.email = some e) ∧
    ((create_contact store c now).2 = .dup →
      (create_contact store c now).1 = store) ∧
    (optTruthy c.email = false → optTruthy c2.email = false →
      (∃ d, (create_contact store c now).2 = .ok d) ∧
      (∃ d, (create_contact (create_contact store c now).1 c2 now2).2 =
        .ok d)) ∧
    ((update_contact store cid u now).2 = .dup ↔
      (findDoc store cid).isSome ∧
      ∃ e, u.email = some (some e) ∧ e ≠ "" ∧
        ∃ d ∈ store, d.email = some e ∧ d.id ≠ cid) ∧
    ((update_contact store cid u now).2 = .dup →
      (update_contact store cid u now).1 = store) :=
  ⟨create_dup_iff store c now,
   create_dup_frame store c now,
   fun h1 h2 => ⟨create_ok_of_falsy store c now h1,
                 create_ok_of_falsy _ c2 now2 h2⟩,
   update_dup_iff store cid u now,
   update_dup_frame store cid u now⟩

/-- Witness for C2 at a concrete store. -/
theorem C2_duplicate_email_witness :
    (create_contact exC2store exC2dup 5).2 = .dup ∧
    (create_contact exC2store exC2dup 5).1 = exC2store ∧
    (∃ d, (create_contact exC2store exC2free 5).2 = .ok d) ∧
    (update_contact exC2store "0002"
      { email := some (some "a@x.io") } 5).2 = .dup := by
  have h := C2_duplicate_email exC2store exC2dup exC2free "0002"
    { email := some (some "a@x.io") } 5 6
  have h2 := C2_duplicate_email exC2store exC2free exC2free "0002"
    { email := some (some "a@x.io") } 5 6
  have hdup : (create_contact exC2store exC2dup 5).2 = .dup :=
    h.1.mpr ⟨"a@x.io", rfl, by decide,
      { mkDoc "0001" "A" with email := some "a@x.io" }, by decide, by decide⟩
  refine ⟨hdup, h.2.1 hdup, (h2.2.2.1 (by decide) (by decide)).1, ?_⟩
  exact h.2.2.2.1.mpr ⟨by decide, "a@x.io", rfl, by decide,
    { mkDoc "0001" "A" with email := some "a@x.io" }, by decide, by decide,
    by decide⟩

/-- Witness for C3 at the spec's example record. -/
theorem C3_transform_contact_witness :
    ∃ c, transform_contact exC3 7 = some c ∧ c._id = "42" ∧
      c.languages = ["English", "French"] ∧ c.tags = [] ∧ c.expose = true ∧
      c.email = none := by
  obtain ⟨c, hc, h1, h2, h3, h4⟩ := C3_transform_contact.2 7
  refine ⟨c, hc, h1, h2, h3, h4, ?_⟩
  have h5 := (C3_transform_contact.1 exC3 7 c hc).2.2.2.2.2.2.2.2.1 "email"
    (by decide) (Or.inl (by decide))
  exact h5

/-- Witness for C4 at a concrete literal search. -/
theorem C4_search_literal_witness :
    (get_contacts exC4w (some "abc") none none none none none none
      "name" 0 20).2 = (exC4w.filter (claimSearchMatches "abc")).length ∧
    (exC4w.filter (claimSearchMatches "abc")).length = 1 := by
  have h := C4_search_literal "abc" (by decide) exC4w "name" 0 20
  exact ⟨h.1, by decide⟩

/-- Witness for C6 at a concrete store. -/
theorem C6_languages_amended_witness :
    "French" ∈ get_all_languages exC6w ∧
    "English" ∉ get_all_languages exC6w := by
  have h := C6_languages_amended exC6w
  exact ⟨(h.2.1 "French" (by decide)).mpr
    ⟨{ mkDoc "0001" "x" with languages := ["French", "English"] },
      by decide, by decide⟩, h.1⟩

/-- Witness for C7 at a concrete store. -/
theorem C7_update_name_frame_witness :
    update_contact exC7store "0001" (nameOnly "New") 9 =
      (replaceFirstBy (fun e => e.id == "0001")
        (fun e => { e with name := "New", updated_at := 9 }) exC7store,
       .ok { mkDoc "0001" "Old" with name := "New", updated_at := 9 }) ∧
    findDoc (update_contact exC7store "0001" (nameOnly "New") 9).1 "0002" =
      findDoc exC7store "0002" := by
  have h := C7_update_name_frame exC7store "0001" "New" 9 (mkDoc "0001" "Old") (by decide)
  exact ⟨h.1, h.2 "0002" (by decide)⟩

/-- Witness for C9 at a concrete one-record input. -/
theorem C9_migration_idempotent_witness :
    (migrate_contacts exC9input
      (migrate_contacts exC9input [] false 1).1 false 2).2.inserted = 0 ∧
    (migrate_contacts exC9input
      (migrate_contacts exC9input [] false 1).1 false 2).2.updated =
      (migrate_contacts exC9input
        (migrate_contacts exC9input [] false 1).1 false 2).2.total := by
  have h := C9_migration_idempotent exC9input [] 1 2 (by decide) (by decide) (by decide)
  exact ⟨h.1, h.2.1⟩

end Phonebook
